import Mathlib

/-!
kakadu: a verification development of `bin/kakadu.js`

A shallow embedding of the command-line script `bin/kakadu.js`: the first-run
prompt, the configuration object, the command-line check, the pre-processor
selection, the snippet rule handed to the development server, the basic-auth
middleware and the order of the start-up tasks.

JavaScript strings are embedded as `String` (or `List Char` where text is taken
apart); values whose JavaScript type is not fixed by the script (command-line
options, fields of the configuration) are embedded as `JSVal`.
-/

set_option maxRecDepth 100000

namespace Kakadu

/-! ## JavaScript values -/

/-- JavaScript values, as the command line and the configuration file can put
them into the fields the script reads. Objects are lists of fields in insertion
order. -/
inductive JSVal where
  | undefined
  | null
  | bool (b : Bool)
  | num (n : Int)
  | str (s : String)
  | arr (items : List JSVal)
  | obj (fields : List (String × JSVal))
  deriving Repr

/-- JavaScript truthiness (`if (v)`, `!v`, `a && b`). -/
def JSVal.truthy : JSVal → Bool
  | .undefined => false
  | .null => false
  | .bool b => b
  | .num n => n != 0
  | .str s => s != ""
  | .arr _ => true
  | .obj _ => true

/-- Strict equality `s === v` with a string on the left: true exactly when `v` is
a string with the same characters (compared case-sensitively). -/
def JSVal.strictEqStr (s : String) : JSVal → Bool
  | .str t => s == t
  | _ => false

/-- Property read `o.key`: the field when `o` is an object that has it,
`undefined` otherwise. -/
def JSVal.get (o : JSVal) (key : String) : JSVal :=
  match o with
  | .obj fields =>
    match fields.find? (fun p => p.1 == key) with
    | some p => p.2
    | none => .undefined
  | _ => .undefined

/-- The own keys of an object, in order. -/
def JSVal.keys : JSVal → List String
  | .obj fields => fields.map Prod.fst
  | _ => []

/-- Assignment `o[key] = v` on a field list: an existing field keeps its place
and gets the new value, a new field goes to the end. -/
def setField (key : String) (v : JSVal) : List (String × JSVal) → List (String × JSVal)
  | [] => [(key, v)]
  | (k, w) :: rest => if k == key then (k, v) :: rest else (k, w) :: setField key v rest

/-- Call `Object.assign(target, source)`: every own field of `source` is assigned to
`target`, one level deep (a field that is itself an object is taken over as a
whole, not merged). -/
def objectAssign (target source : JSVal) : JSVal :=
  match target, source with
  | .obj t, .obj s => .obj (s.foldl (fun acc p => setField p.1 p.2 acc) t)
  | t, _ => t

/-! ## Command line (lines 86-99) -/

/-- The options object `program` after `.parse(process.argv)`: `--auth` is a
flag, `--user [username]` and `--pass [password]` take an optional value. -/
structure Program where
  auth : JSVal
  user : JSVal
  pass : JSVal
  deriving Repr

/-- What the top level of the script does after parsing the command line: the
lines written with `util.log`, the status of `process.exit` if it is called, and
whether the call `kakadu_init()` on the last line is reached. -/
structure TopLevel where
  logged : List String
  exitStatus : Option Nat
  initCalled : Bool
  deriving DecidableEq, Repr

/-- The text of the diagnostic of line 96, without the colours `chalk` adds. -/
def authDiagnostic : String :=
  "You are running kakadu with basic auth but did not set the USER -u and PASSWORD -p " ++
    "with cli args."

/-- Lines 93-99 and the call on line 246:
`if (program.auth) { if (!program.user || !program.pass) { util.log(..); process.exit(1); } }`
and then `kakadu_init()`; `process.exit` ends the process, so nothing after it
runs. -/
def topLevel (program : Program) : TopLevel :=
  if program.auth.truthy then
    if !program.user.truthy || !program.pass.truthy then
      { logged := [authDiagnostic], exitStatus := some 1, initCalled := false }
    else
      { logged := [], exitStatus := none, initCalled := true }
  else
    { logged := [], exitStatus := none, initCalled := true }

/-! ## The basic-auth middleware (lines 177-195) -/

/-- The object `basicAuth(req)` returns when the `Authorization` header parses:
`{ name, pass }`, both strings. -/
structure Credentials where
  name : String
  pass : String
  deriving DecidableEq, Repr

/-- An incoming request, as far as the middleware looks at it: its headers. -/
structure Request where
  headers : List (String × String)
  deriving DecidableEq, Repr

/-- The response object, as far as the middleware writes to it. -/
structure Response where
  statusCode : Nat
  headers : List (String × String)
  body : String
  finished : Bool
  deriving DecidableEq, Repr

/-- Method `res.setHeader(name, value)`: the value replaces an earlier one stored under
the same name (header names are compared without regard to case). -/
def Response.setHeader (res : Response) (name value : String) : Response :=
  { res with
    headers := (name, value) ::
      res.headers.filter (fun p => p.1.toLower != name.toLower) }

/-- Method `res.getHeader(name)`. -/
def Response.getHeader (res : Response) (name : String) : Option String :=
  (res.headers.find? (fun p => p.1.toLower == name.toLower)).map Prod.snd

/-- Method `res.end(data)`: writes `data` as the last chunk and finishes the response. -/
def Response.«end» (res : Response) (data : String) : Response :=
  { res with body := res.body ++ data, finished := true }

/-- What one call of the middleware leaves behind: the response object and
whether `next()` was called. -/
structure Handled where
  res : Response
  nextCalled : Bool
  deriving DecidableEq, Repr

/-- The middleware of lines 181-193. `basicAuth` is the function of the
`basic-auth` package: it returns the credentials of the request, or `undefined`
(here `none`) when the `Authorization` header is missing or does not parse.

```
let auth = basicAuth(req);
if (auth && auth.name === program.user && auth.pass === program.pass) {
    return next();
} else {
    res.statusCode = 401;
    res.setHeader('WWW-Authenticate', 'Basic realm="KAKADU Static Server"');
    res.end('Access denied');
}
```
-/
def middleware (basicAuth : Request → Option Credentials) (program : Program)
    (req : Request) (res : Response) : Handled :=
  let auth := basicAuth req
  if (match auth with
      | some a =>
        JSVal.strictEqStr a.name program.user && JSVal.strictEqStr a.pass program.pass
      | none => false) then
    { res := res, nextCalled := true }
  else
    let res1 := { res with statusCode := 401 }
    let res2 := res1.setHeader "WWW-Authenticate" "Basic realm=\"KAKADU Static Server\""
    let res3 := res2.«end» "Access denied"
    { res := res3, nextCalled := false }

/-- Lines 177-195: `proxy-start` puts the middleware into `config.bs` only when
`program.auth` is truthy. -/
def installedMiddleware (basicAuth : Request → Option Credentials) (program : Program) :
    Option (Request → Response → Handled) :=
  if program.auth.truthy then some (middleware basicAuth program) else none

/-! ## The first-run prompt (lines 22-55) -/

/-- The regular expression `/^\d+$/` of line 37, tested against a whole string:
`^` holds only at the start, `\d+` takes the longest run of the digits `0`-`9`,
and `$` (no `m` flag) holds only at the end of the input. -/
def matchDigits (value : String) : Bool :=
  let run := value.toList.span Char.isDigit
  !run.1.isEmpty && run.2.isEmpty

/-- The `validate` function of the port question (lines 35-44):
`let check = value.match(/^\d+$/); if (check) { return true; } return 'Use only numbers';` -/
def validate (value : String) : JSVal :=
  if matchDigits value then JSVal.bool true else JSVal.str "Use only numbers"

/-- The `default` function of the port question (lines 32-34). -/
def portDefault : String := "7200"

/-- The method `s.toLowerCase()`, character by character; on the ASCII letters,
the only ones in the texts of the script, it is the change of case. -/
def toLowerCase (s : String) : String := String.mk (s.toList.map Char.toLower)

/-- The `choices` of the pre-processor question (line 50). -/
def choices : List String := ["Styl", "Scss", "Less"]

/-- The `filter` function of the pre-processor question (lines 51-53):
`val.toLowerCase()`. -/
def filter (val : String) : String := toLowerCase val

/-- The answers `inquirer.prompt(questions)` resolves with: the text typed for
the host, the text typed for the port, and the filtered choice of the list. -/
structure Answers where
  host : String
  port : String
  tech : String
  deriving DecidableEq, Repr

/-- The answers for a host text, a port text and the index of the entry picked
from `choices`. -/
def promptAnswers (host port : String) (pick : Fin 3) : Answers :=
  { host := host, port := port, tech := filter (choices.get ⟨pick.val, pick.isLt⟩) }

/-! ## The configuration object (lines 57-82, 210-241) -/

/-- The initial value of `config` (lines 57-82). -/
def config : JSVal :=
  .obj [
    ("bs", .obj [
      ("proxy", .null),
      ("port", .num 7200),
      ("notify", .bool true),
      ("open", .bool true),
      ("logLevel", .str "info"),
      ("logPrefix", .str "KAKADU"),
      ("logFileChanges", .bool true)]),
    ("autoprefixer", .obj [
      ("browsers", .arr [
        .str "last 2 version",
        .str "ie >= 9",
        .str "Android 2.3",
        .str "Android >= 4",
        .str "Chrome >= 20",
        .str "Firefox >= 24",
        .str "Explorer >= 8",
        .str "iOS >= 6",
        .str "Opera >= 12",
        .str "Safari >= 6"]),
      ("cascade", .bool true)])]

/-- The first-run branch of `kakadu_init` (lines 222-234): the value of `config`
after
`Object.assign(config, { bs : { proxy : answers.host, port : answers.port }, tech : answers.tech })`,
which is the object `create_config('kakadu.json', config)` writes to
`kakadu.json`. -/
def kakadu_init (answers : Answers) : JSVal :=
  objectAssign config
    (.obj [
      ("bs", .obj [("proxy", .str answers.host), ("port", .str answers.port)]),
      ("tech", .str answers.tech)])

/-- The keys the persisted-configuration shape asks of `bs`. -/
def bsShapeKeys : List String :=
  ["proxy", "port", "notify", "open", "logLevel", "logPrefix", "logFileChanges"]

/-! ## Selecting the pre-processor (lines 118-137) -/

/-- The transforms `stylus()`, `scss()` and `less()`. -/
inductive Transform where
  | stylus
  | scss
  | less
  deriving DecidableEq, Repr

/-- One call of `stylesPreProcessor`: the value it returns (`none` for
`undefined`) and the lines it wrote with `console.log`. The call never throws. -/
structure Selected where
  returned : Option Transform
  logged : List String
  deriving DecidableEq, Repr

/-- The function `stylesPreProcessor` (lines 118-137), a `switch` on `config.tech`
whose cases compare with `===`; the `default` case logs and falls off the end of
the function. -/
def stylesPreProcessor (config : JSVal) : Selected :=
  let tech := config.get "tech"
  if JSVal.strictEqStr "styl" tech then
    { returned := some Transform.stylus, logged := [] }
  else if JSVal.strictEqStr "scss" tech then
    { returned := some Transform.scss, logged := [] }
  else if JSVal.strictEqStr "less" tech then
    { returned := some Transform.less, logged := [] }
  else
    { returned := none, logged := ["Styles pre-processor error, no option in config"] }

/-! ## The snippet rule (lines 155-174) -/

/-- The text bound to `scriptSnippet` (lines 160-167). -/
def scriptSnippet : String :=
  "" ++
  "<script id=\"___kakadu___\" type=\"text/javascript\">" ++
  "var ks = document.createElement(\"script\");" ++
  "ks.setAttribute(\"id\", \"___kakadu_script___\");" ++
  "ks.setAttribute(\"type\", \"text/javascript\");" ++
  "ks.src = \"/app.js\";" ++
  "document.getElementsByTagName(\"head\").item(0).appendChild(ks);" ++
  "</script>"

/-- The text bound to `cssSnippet` (line 169). -/
def cssSnippet : String :=
  "<link rel=\"stylesheet\" type=\"text/css\" href=\"/app.css\">"

/-- The function `snippetOptions.rule.fn` (lines 158-172):
`return cssSnippet + scriptSnippet + snippet + match;` -/
def fn (snippet «match» : String) : String :=
  cssSnippet ++ scriptSnippet ++ snippet ++ «match»

/-- The source text of `snippetOptions.rule.match`, `/<\/head>/i`: the seven
characters it matches one after the other. -/
def headPattern : List Char := "</head>".toList

/-- One pattern character against one input character under the `i` flag: both
are brought to upper case and compared. For the characters of `headPattern` only
the two ASCII cases of a letter, and a sign itself, compare equal. -/
def ciEq (p c : Char) : Bool := c.toUpper == p.toUpper

/-- Matching the characters of a pattern at the front of the input: the matched
text (in the case it has in the input) and what follows it. -/
def matchAt : List Char → List Char → Option (List Char × List Char)
  | [], s => some ([], s)
  | _ :: _, [] => none
  | p :: ps, c :: cs =>
    if ciEq p c then
      match matchAt ps cs with
      | some r => some (c :: r.1, r.2)
      | none => none
    else none

/-- The call `body.replace(re, f)` for a regular expression without the `g` flag
and a function `f`: the match that starts first is replaced by what `f` returns
for it, taken literally; without a match the text is returned as it is. -/
def replaceFirst (pat : List Char) (f : List Char → List Char) : List Char → List Char
  | [] => []
  | c :: cs =>
    match matchAt pat (c :: cs) with
    | some r => f r.1 ++ r.2
    | none => c :: replaceFirst pat f cs

/-- The rewrite the development server applies to an HTML body with the rule of
lines 156-173: `body.replace(rule.match, m => rule.fn(snippet, m))`, where
`snippet` is the server's own snippet. -/
def rewrite (snippet body : String) : String :=
  String.mk (replaceFirst headPattern (fun m => (fn snippet (String.mk m)).toList) body.toList)

/-- A text is a match of `/<\/head>/i`: brought to lower case it is `</head>`. -/
def IsHeadMatch (m : String) : Prop := toLowerCase m = "</head>"

/-- List form of `IsHeadMatch`. -/
def HeadMatchL (l : List Char) : Prop := l.map Char.toLower = headPattern

/-- The number of places in a text at which `/<\/head>/i` matches. -/
def headMatchesL : List Char → Nat
  | [] => 0
  | c :: cs => (if (matchAt headPattern (c :: cs)).isSome then 1 else 0) + headMatchesL cs

/-- The number of places in a document at which `/<\/head>/i` matches. -/
def headMatches (doc : String) : Nat := headMatchesL doc.toList

/-- A text that opens a tag: a `<` followed by characters none of which is `<`. -/
def OpensTag (pat : List Char) : Prop := ∃ pt, pat = '<' :: pt ∧ '<' ∉ pt

/-- The characters of `cssSnippet` after its first. -/
def cssTail : List Char := cssSnippet.toList.tail

/-- The characters of `scriptSnippet` after its first and before the closing
`</script>`. -/
def scriptOpenTail : List Char :=
  (scriptSnippet.toList.take (scriptSnippet.toList.length - "</script>".length)).tail

/-- The number of places in a text at which a given text starts. -/
def countOcc (pat : List Char) : List Char → Nat
  | [] => 0
  | c :: cs => (if pat.isPrefixOf (c :: cs) then 1 else 0) + countOcc pat cs

/-- The number of `<link` opening tags in a text. -/
def countLink (s : String) : Nat := countOcc "<link".toList s.toList

/-- The number of `<script` opening tags in a text. -/
def countScript (s : String) : Nat := countOcc "<script".toList s.toList

/-! ## The start-up tasks (lines 139-207) -/

/-- What starts a run of the task `styles`: the sequence of the task `start`
(line 205), or the watcher after a change of a source file (line 199). -/
inductive Origin where
  | sequence
  | watcher
  deriving DecidableEq, Repr

/-- The observable steps of a start-up run. -/
inductive Event where
  /-- The call `bs.init(config.bs, done)` is made (line 197). -/
  | serverInitCalled
  /-- The completion callback of `bs.init` fires: the server reports bound. -/
  | serverBound
  /-- The call `gulp.watch('./**/*.' + config.tech, ['styles'])` is made
  (line 199): the watcher is attached. -/
  | watcherAttached
  /-- The body of the task `styles` starts to run (line 141). -/
  | stylesStarted (origin : Origin)
  /-- The call `.pipe(stylesPreProcessor())` of line 143 throws, because
  `stylesPreProcessor()` returned `undefined`. -/
  | stylesThrew (origin : Origin)
  /-- The stream of `styles` has written the compiled stylesheet (line 146). -/
  | stylesCompiled (origin : Origin)
  /-- The compilation failed in the stream; `plumber()` keeps the error from
  ending the process, and nothing is written. -/
  | stylesFailed (origin : Origin)
  deriving DecidableEq, Repr

/-- Straight-line code of one turn of the event loop, in continuation style. -/
inductive Prog where
  /-- The end of the code. -/
  | halt
  /-- One observable step, then the rest. -/
  | emit (e : Event) (rest : Prog)
  /-- Starting an asynchronous operation whose completion runs `callback` in a
  later turn; the code goes on with `rest` at once. -/
  | later (callback : Prog) (rest : Prog)
  /-- An exception is thrown; the code after it does not run. -/
  | throw
  deriving Repr

/-- Calling `p` and going on with `q` in the same turn. An exception thrown in
`p` either escapes (`q` is skipped and the exception goes on to the caller) or is
contained at the call (`q` runs). -/
def Prog.andThen (escapes : Bool) : Prog → Prog → Prog
  | .halt, q => q
  | .emit e p, q => .emit e (p.andThen escapes q)
  | .later cb p, q => .later cb (p.andThen escapes q)
  | .throw, q => if escapes then .throw else q

/-- When `bs.init` fires its completion callback: in a later turn of the event
loop (what a server that binds a port does), or already inside the call. -/
inductive Timing where
  | deferred
  | immediate
  deriving DecidableEq, Repr

/-- The call `bs.init(config.bs, callback)` followed by `rest`. -/
def bsInit (t : Timing) (escapes : Bool) (callback rest : Prog) : Prog :=
  match t with
  | .deferred => .emit .serverInitCalled (.later (.emit .serverBound callback) rest)
  | .immediate =>
    .emit .serverInitCalled ((Prog.emit .serverBound callback).andThen escapes rest)

/-- The body of the task `styles` (lines 139-148), started by `origin`. With a
transform from `stylesPreProcessor()` the stream is built and does its work in a
later turn, where the compilation succeeds and the stylesheet is written
(`compiles`) or fails under `plumber()`; with `undefined` from
`stylesPreProcessor()` the call `.pipe(undefined)` throws. -/
def stylesTask (config : JSVal) (origin : Origin) (compiles : Bool) : Prog :=
  .emit (.stylesStarted origin)
    (match (stylesPreProcessor config).returned with
    | some _ =>
      .later
        (.emit (if compiles then .stylesCompiled origin else .stylesFailed origin) .halt)
        .halt
    | none => .emit (.stylesThrew origin) .throw)

/-- The task runner running the body of a task: an exception of the body either
escapes the task runner or is contained by it (the task ends in error). Which of
the two the task runner does is not in the script; both are covered. -/
def runTaskBody (escapes : Bool) (body : Prog) : Prog :=
  body.andThen escapes .halt

/-- The task `proxy-start` (lines 150-201): after the assignments to `config.bs`
it calls `bs.init(config.bs, done)` and then, in the same function body,
`gulp.watch(...)`. The task is finished when `done` is called. -/
def proxyStartTask (t : Timing) (escapes : Bool) (done : Prog) : Prog :=
  bsInit t escapes done (.emit .watcherAttached .halt)

/-- The task `start` (lines 203-207): `runSequence('proxy-start', 'styles', done)`
runs `proxy-start` and runs `styles` when `proxy-start` is finished. The final
`done` has no observable step of its own. -/
def startTask (config : JSVal) (t : Timing) (escapes firstCompiles : Bool) : Prog :=
  proxyStartTask t escapes (runTaskBody escapes (stylesTask config .sequence firstCompiles))

/-- What one turn leaves behind: the steps observed, the callbacks handed to
asynchronous operations (in the order they were started), and whether the turn
ended with an exception nobody caught. -/
structure Turn where
  events : List Event
  callbacks : List Prog
  threw : Bool
  deriving Repr

/-- Running the code of one turn. -/
def runTurn : Prog → Turn
  | .halt => { events := [], callbacks := [], threw := false }
  | .emit e p =>
    { events := e :: (runTurn p).events, callbacks := (runTurn p).callbacks,
      threw := (runTurn p).threw }
  | .later cb p =>
    { events := (runTurn p).events, callbacks := cb :: (runTurn p).callbacks,
      threw := (runTurn p).threw }
  | .throw => { events := [], callbacks := [], threw := true }

/-- The state of the process between two turns: the steps observed so far, the
callbacks of the asynchronous operations still pending, and whether an uncaught
exception has ended the process. -/
structure Loop where
  trace : List Event
  queue : List Prog
  crashed : Bool
  deriving Repr

/-- One turn running the code `p`. -/
def Loop.exec (s : Loop) (p : Prog) : Loop :=
  { trace := s.trace ++ (runTurn p).events,
    queue := s.queue ++ (runTurn p).callbacks,
    crashed := (runTurn p).threw }

/-- What the outside world does next. -/
inductive Input where
  /-- The pending asynchronous operation number `i` completes and its callback
  runs. -/
  | complete (i : Nat)
  /-- A file matched by the glob of line 199 changes on disk; `compiles` says
  whether the compilation this starts, if any, succeeds. -/
  | fileChange (compiles : Bool)
  deriving DecidableEq, Repr

/-- One step of the event loop. A process ended by an exception does nothing
more. A file change is seen only by an attached watcher, whose handler (the
`['styles']` of line 199) runs the task `styles`. -/
def step (config : JSVal) (escapes : Bool) (s : Loop) : Input → Loop
  | .complete i =>
    if s.crashed then s
    else
      match s.queue.get? i with
      | some p => ({ s with queue := s.queue.eraseIdx i }).exec p
      | none => s
  | .fileChange compiles =>
    if s.crashed then s
    else if Event.watcherAttached ∈ s.trace then
      s.exec (runTaskBody escapes (stylesTask config .watcher compiles))
    else s

/-- A start-up run: the configuration, when `bs.init` calls back, whether an
exception of a task body escapes the task runner, whether the compilation
started by the sequence succeeds, and what the outside world does after the
first turn. -/
structure Run where
  config : JSVal
  timing : Timing
  escapes : Bool
  firstCompiles : Bool
  inputs : List Input

/-- The state after the first turn, in which the body of the task `start` runs. -/
def Run.first (r : Run) : Loop :=
  ({ trace := [], queue := [], crashed := false } : Loop).exec
    (startTask r.config r.timing r.escapes r.firstCompiles)

/-- The state at the end of a start-up run. -/
def Run.last (r : Run) : Loop :=
  r.inputs.foldl (step r.config r.escapes) r.first

/-- The observable steps of a start-up run of the task `start`. -/
def startTrace (r : Run) : List Event := r.last.trace

/-- In a trace, `a` happens, and `b` happens, and the first `a` comes before the
first `b`. -/
def precedes (a b : Event) (tr : List Event) : Bool :=
  decide (a ∈ tr) && decide (b ∈ tr) && decide (tr.indexOf a < tr.indexOf b)

/-- The observable steps of the whole process: `kakadu_init` is the only place
that starts the task `start` (`gulp.start('start')`, lines 113 and 218), so a
process that exits before `kakadu_init` has no step at all. -/
def processTrace (r : Run) (program : Program) : List Event :=
  if (topLevel program).initCalled then startTrace r else []

/-- The order of the start-up steps as the specification states it: the server
reports bound, then the first compilation completes, then the watcher is
attached. -/
def strictStartupOrder (tr : List Event) : Bool :=
  precedes .serverBound (.stylesCompiled .sequence) tr &&
    precedes (.stylesCompiled .sequence) .watcherAttached tr

/-- Every turn of a piece of code, the turns of its callbacks included, has
steps with the property `P`. -/
inductive AllTurns (P : List Event → Prop) : Prog → Prop where
  | mk (p : Prog) (now : P (runTurn p).events)
      (after : ∀ cb ∈ (runTurn p).callbacks, AllTurns P cb) : AllTurns P p

/-- In a list of steps, `b` does not happen without `a` before it. -/
def Ordered (a b : Event) (evs : List Event) : Prop :=
  b ∈ evs → precedes a b evs = true

/-! ## Theorems -/

/-! ### The command-line check -/

/-- C7: with `auth` set and `user` or `pass` missing or falsy (the empty string
included) the script logs a diagnostic and exits with status 1, `kakadu_init` is
not reached and no task, server or watcher is started; with `auth` unset, or both
`user` and `pass` truthy, the check does not exit and `kakadu_init` is reached. -/
theorem topLevel_exit_iff (program : Program) :
    (topLevel program =
        { logged := [authDiagnostic], exitStatus := some 1, initCalled := false } ↔
      program.auth.truthy = true ∧
        (program.user.truthy = false ∨ program.pass.truthy = false)) ∧
    (topLevel program = { logged := [], exitStatus := none, initCalled := true } ↔
      program.auth.truthy = false ∨
        (program.user.truthy = true ∧ program.pass.truthy = true)) ∧
    ((topLevel program).exitStatus = some 1 ↔ (topLevel program).initCalled = false) ∧
    (∀ r : Run, processTrace r program =
      if (topLevel program).exitStatus = some 1 then [] else startTrace r) ∧
    (topLevel ⟨.bool true, .str "", .str "secret"⟩).exitStatus = some 1 ∧
    (topLevel ⟨.bool true, .str "alice", .undefined⟩).exitStatus = some 1 ∧
    (topLevel ⟨.undefined, .undefined, .undefined⟩).exitStatus = none ∧
    (topLevel ⟨.bool true, .str "alice", .str "secret"⟩).exitStatus = none := by
  refine ⟨?_, ?_, ?_, ?_, by decide, by decide, by decide, by decide⟩
  · unfold topLevel
    cases program.auth.truthy <;> cases program.user.truthy <;>
      cases program.pass.truthy <;> simp
  · unfold topLevel
    cases program.auth.truthy <;> cases program.user.truthy <;>
      cases program.pass.truthy <;> simp
  · unfold topLevel
    cases program.auth.truthy <;> cases program.user.truthy <;>
      cases program.pass.truthy <;> simp
  · intro r
    unfold processTrace topLevel
    cases program.auth.truthy <;> cases program.user.truthy <;>
      cases program.pass.truthy <;> simp

/-! ### The middleware -/

theorem strictEqStr_iff (s : String) (v : JSVal) :
    JSVal.strictEqStr s v = true ↔ v = JSVal.str s := by
  cases v <;> simp [JSVal.strictEqStr]
  exact eq_comm

theorem middleware_next_iff (basicAuth : Request → Option Credentials) (program : Program)
    (req : Request) (res : Response) :
    (middleware basicAuth program req res).nextCalled = true ↔
      ∃ c, basicAuth req = some c ∧ program.user = JSVal.str c.name ∧
        program.pass = JSVal.str c.pass := by
  unfold middleware
  cases h : basicAuth req with
  | none => simp
  | some a =>
    by_cases hc : (JSVal.strictEqStr a.name program.user &&
        JSVal.strictEqStr a.pass program.pass) = true
    · simp only [hc, if_true]
      have := hc
      rw [Bool.and_eq_true, strictEqStr_iff, strictEqStr_iff] at this
      simpa using this
    · simp only [hc]
      have := hc
      rw [Bool.and_eq_true, strictEqStr_iff, strictEqStr_iff] at this
      simpa using this

/-- C1: with auth enabled, `proxy-start` installs a middleware that calls
`next()` if and only if `basicAuth(req)` yields credentials whose name is exactly
`program.user` and whose pass is exactly `program.pass` (a name in another case
is denied); when `basicAuth(req)` yields nothing the request is denied, and the
middleware always returns normally. -/
theorem auth_allow_iff (basicAuth : Request → Option Credentials) (program : Program)
    (hauth : program.auth.truthy = true) :
    ∃ mw, installedMiddleware basicAuth program = some mw ∧
      (∀ req res, (mw req res).nextCalled = true ↔
        ∃ c, basicAuth req = some c ∧ program.user = JSVal.str c.name ∧
          program.pass = JSVal.str c.pass) ∧
      (∀ req res, basicAuth req = none → (mw req res).nextCalled = false) ∧
      (∀ req res, basicAuth req = some ⟨"Alice", "secret"⟩ →
        program.user = JSVal.str "alice" → (mw req res).nextCalled = false) := by
  refine ⟨middleware basicAuth program, by simp [installedMiddleware, hauth], ?_, ?_, ?_⟩
  · intro req res
    exact middleware_next_iff basicAuth program req res
  · intro req res hnone
    rw [Bool.eq_false_iff]
    intro h
    obtain ⟨c, hc, _⟩ := (middleware_next_iff basicAuth program req res).1 h
    simp [hnone] at hc
  · intro req res hsome huser
    rw [Bool.eq_false_iff]
    intro h
    obtain ⟨c, hc, hu, _⟩ := (middleware_next_iff basicAuth program req res).1 h
    rw [hsome] at hc
    cases hc
    rw [huser] at hu
    simp at hu

theorem auth_allow_iff_witness :
    ∃ mw, installedMiddleware (fun _ => some ⟨"alice", "secret"⟩)
        ⟨.bool true, .str "alice", .str "secret"⟩ = some mw ∧
      (mw ⟨[]⟩ ⟨200, [], "", false⟩).nextCalled = true := by
  obtain ⟨mw, hmw, hiff, _, _⟩ := auth_allow_iff (fun _ => some ⟨"alice", "secret"⟩)
    ⟨.bool true, .str "alice", .str "secret"⟩ rfl
  exact ⟨mw, hmw, (hiff ⟨[]⟩ ⟨200, [], "", false⟩).2 ⟨⟨"alice", "secret"⟩, rfl, rfl, rfl⟩⟩

/-- C4: with auth enabled, a denied request (no credentials, or a name or pass
that differs from the configured pair) gets status 401, the header
`WWW-Authenticate: Basic realm="KAKADU Static Server"`, the body `Access denied`,
a finished response, and no call of `next()`; an allowed request has `next()`
called and its response object left as it was. -/
theorem auth_deny_response (basicAuth : Request → Option Credentials) (program : Program)
    (hauth : program.auth.truthy = true) :
    ∃ mw, installedMiddleware basicAuth program = some mw ∧
      (∀ req res,
        (¬ ∃ c, basicAuth req = some c ∧ program.user = JSVal.str c.name ∧
          program.pass = JSVal.str c.pass) →
        (mw req res).nextCalled = false ∧
        (mw req res).res.statusCode = 401 ∧
        (mw req res).res.getHeader "WWW-Authenticate" =
          some "Basic realm=\"KAKADU Static Server\"" ∧
        (mw req res).res.body = res.body ++ "Access denied" ∧
        (mw req res).res.finished = true) ∧
      (∀ req res,
        (∃ c, basicAuth req = some c ∧ program.user = JSVal.str c.name ∧
          program.pass = JSVal.str c.pass) →
        (mw req res).nextCalled = true ∧ (mw req res).res = res) := by
  refine ⟨middleware basicAuth program, by simp [installedMiddleware, hauth], ?_, ?_⟩
  · intro req res hdeny
    have hn : (middleware basicAuth program req res).nextCalled = false := by
      rw [Bool.eq_false_iff]
      exact fun h => hdeny ((middleware_next_iff basicAuth program req res).1 h)
    have hcond : ¬ ((match basicAuth req with
        | some a =>
          JSVal.strictEqStr a.name program.user && JSVal.strictEqStr a.pass program.pass
        | none => false) = true) := by
      intro hc
      have : (middleware basicAuth program req res).nextCalled = true := by
        simp only [middleware, hc, if_true]
      rw [hn] at this
      exact Bool.noConfusion this
    refine ⟨hn, ?_, ?_, ?_, ?_⟩ <;>
      simp only [middleware, hcond, Bool.false_eq_true, if_false, Response.«end»,
        Response.setHeader, Response.getHeader, List.find?_cons, beq_self_eq_true,
        Option.map_some']
  · intro req res hallow
    have hn := (middleware_next_iff basicAuth program req res).2 hallow
    refine ⟨hn, ?_⟩
    unfold middleware at hn ⊢
    by_cases hc : ((match basicAuth req with
        | some a =>
          JSVal.strictEqStr a.name program.user && JSVal.strictEqStr a.pass program.pass
        | none => false) = true)
    · simp only [hc, if_true]
    · simp only [hc, if_false] at hn
      exact Bool.noConfusion hn

theorem auth_deny_response_witness :
    ∃ mw, installedMiddleware (fun _ => none)
        ⟨.bool true, .str "alice", .str "secret"⟩ = some mw ∧
      (mw ⟨[]⟩ ⟨200, [], "", false⟩).res.statusCode = 401 ∧
      (mw ⟨[]⟩ ⟨200, [], "", false⟩).res.body = "" ++ "Access denied" := by
  obtain ⟨mw, hmw, hdeny, _⟩ := auth_deny_response (fun _ => none)
    ⟨.bool true, .str "alice", .str "secret"⟩ rfl
  have h := hdeny ⟨[]⟩ ⟨200, [], "", false⟩ (by simp)
  exact ⟨mw, hmw, h.2.1, h.2.2.2.1⟩

/-! ### The port prompt -/

theorem isDigit_iff_mem (c : Char) : c.isDigit = true ↔ c ∈ "0123456789".toList := by
  constructor
  · intro h
    simp only [Char.isDigit, Bool.and_eq_true, decide_eq_true_eq, ge_iff_le] at h
    obtain ⟨h1, h2⟩ := h
    have h1' : 48 ≤ c.val.toNat := h1
    have h2' : c.val.toNat ≤ 57 := h2
    have hc : ∀ d : Char, c.val.toNat = d.val.toNat → c = d := by
      intro d hd
      exact Char.ext (UInt32.ext hd)
    have : c.val.toNat = 48 ∨ c.val.toNat = 49 ∨ c.val.toNat = 50 ∨ c.val.toNat = 51 ∨
        c.val.toNat = 52 ∨ c.val.toNat = 53 ∨ c.val.toNat = 54 ∨ c.val.toNat = 55 ∨
        c.val.toNat = 56 ∨ c.val.toNat = 57 := by omega
    rcases this with h | h | h | h | h | h | h | h | h | h
    · rw [hc '0' h]; decide
    · rw [hc '1' h]; decide
    · rw [hc '2' h]; decide
    · rw [hc '3' h]; decide
    · rw [hc '4' h]; decide
    · rw [hc '5' h]; decide
    · rw [hc '6' h]; decide
    · rw [hc '7' h]; decide
    · rw [hc '8' h]; decide
    · rw [hc '9' h]; decide
  · intro h
    have : c = '0' ∨ c = '1' ∨ c = '2' ∨ c = '3' ∨ c = '4' ∨ c = '5' ∨ c = '6' ∨
        c = '7' ∨ c = '8' ∨ c = '9' := by simpa using h
    rcases this with h | h | h | h | h | h | h | h | h | h <;> subst h <;> decide

theorem span_all_iff (p : Char → Bool) (l : List Char) :
    (l.span p).2 = [] ↔ ∀ c ∈ l, p c = true := by
  induction l with
  | nil => simp [List.span_eq_take_drop]
  | cons a t ih =>
    rw [List.span_eq_take_drop] at ih ⊢
    by_cases ha : p a = true
    · simp [List.dropWhile_cons, ha] at ih ⊢
    · simp [List.dropWhile_cons, ha]

theorem matchDigits_iff (value : String) :
    matchDigits value = true ↔
      value.toList ≠ [] ∧ ∀ c ∈ value.toList, c ∈ "0123456789".toList := by
  have hall : (∀ c ∈ value.toList, c ∈ "0123456789".toList) ↔
      ∀ c ∈ value.toList, Char.isDigit c = true :=
    forall₂_congr (fun c _ => (isDigit_iff_mem c).symm)
  rw [hall, ← span_all_iff]
  unfold matchDigits
  have h3 := List.takeWhile_append_dropWhile Char.isDigit value.toList
  simp only [List.span_eq_take_drop, Bool.and_eq_true, Bool.not_eq_true', List.isEmpty_iff,
    Bool.eq_false_iff, ne_eq]
  constructor
  · rintro ⟨h1, h2⟩
    refine ⟨?_, h2⟩
    intro hnil
    apply h1
    rw [hnil]
    rfl
  · rintro ⟨h1, h2⟩
    refine ⟨?_, h2⟩
    intro hnil
    apply h1
    rw [hnil, h2] at h3
    exact h3.symm

/-- C10: the port prompt's `validate` returns `true` if and only if the value is
non-empty and made of the decimal digits `0`-`9` only, and returns the message
`Use only numbers` otherwise; the prompt's own default `7200` is accepted, and
the empty string, signed numbers and strings with a space are rejected. -/
theorem validate_iff (value : String) :
    (validate value = JSVal.bool true ↔
      value.toList ≠ [] ∧ ∀ c ∈ value.toList, c ∈ "0123456789".toList) ∧
    (validate value ≠ JSVal.bool true → validate value = JSVal.str "Use only numbers") ∧
    validate portDefault = JSVal.bool true ∧
    validate "" = JSVal.str "Use only numbers" ∧
    validate "-1" = JSVal.str "Use only numbers" ∧
    validate "+7200" = JSVal.str "Use only numbers" ∧
    validate "72 00" = JSVal.str "Use only numbers" ∧
    validate " 7200" = JSVal.str "Use only numbers" := by
  refine ⟨?_, ?_, rfl, rfl, rfl, rfl, rfl, rfl⟩
  · rw [← matchDigits_iff]
    unfold validate
    cases matchDigits value <;> simp
  · unfold validate
    cases matchDigits value <;> simp

theorem validate_iff_witness :
    validate "x1" ≠ JSVal.bool true ∧ validate "x1" = JSVal.str "Use only numbers" :=
  have h : validate "x1" ≠ JSVal.bool true := by
    rw [show validate "x1" = JSVal.str "Use only numbers" from rfl]
    exact fun h => JSVal.noConfusion h
  ⟨h, (validate_iff "x1").2.1 h⟩

/-! ### Selecting the pre-processor -/

/-- C6, as stated, fails: for `config.tech = 'sass'`, a value other than `'styl'`,
`'scss'` and `'less'`, and for a configuration without `tech`,
`stylesPreProcessor` writes one line to the console and returns normally with no
transform. -/
theorem stylesPreProcessor_unknown_returns :
    stylesPreProcessor (.obj [("tech", .str "sass")]) =
      { returned := none, logged := ["Styles pre-processor error, no option in config"] } ∧
    stylesPreProcessor (.obj []) =
      { returned := none, logged := ["Styles pre-processor error, no option in config"] } := by
  constructor <;> rfl

/-- C6, amended: for each of `'styl'`, `'scss'`, `'less'` the function
`stylesPreProcessor` returns the stylus, sass and less transform respectively and
logs nothing; for every other value of `config.tech` (an absent one included) it
logs `Styles pre-processor error, no option in config` once and returns
`undefined`, that is no transform, without raising an error. -/
theorem stylesPreProcessor_cases (config : JSVal) :
    ((stylesPreProcessor config).returned = some Transform.stylus ↔
      config.get "tech" = JSVal.str "styl") ∧
    ((stylesPreProcessor config).returned = some Transform.scss ↔
      config.get "tech" = JSVal.str "scss") ∧
    ((stylesPreProcessor config).returned = some Transform.less ↔
      config.get "tech" = JSVal.str "less") ∧
    ((stylesPreProcessor config).returned = none ↔
      config.get "tech" ≠ JSVal.str "styl" ∧ config.get "tech" ≠ JSVal.str "scss" ∧
        config.get "tech" ≠ JSVal.str "less") ∧
    ((stylesPreProcessor config).logged =
      if (stylesPreProcessor config).returned = none then
        ["Styles pre-processor error, no option in config"]
      else []) := by
  unfold stylesPreProcessor
  by_cases h1 : JSVal.strictEqStr "styl" (config.get "tech") = true
  · have e1 := (strictEqStr_iff _ _).1 h1
    rw [e1]
    simp [JSVal.strictEqStr]
  · by_cases h2 : JSVal.strictEqStr "scss" (config.get "tech") = true
    · have e2 := (strictEqStr_iff _ _).1 h2
      rw [e2]
      simp [JSVal.strictEqStr]
    · by_cases h3 : JSVal.strictEqStr "less" (config.get "tech") = true
      · have e3 := (strictEqStr_iff _ _).1 h3
        rw [e3]
        simp [JSVal.strictEqStr]
      · have n1 : ¬ config.get "tech" = JSVal.str "styl" :=
          fun e => h1 ((strictEqStr_iff _ _).2 e)
        have n2 : ¬ config.get "tech" = JSVal.str "scss" :=
          fun e => h2 ((strictEqStr_iff _ _).2 e)
        have n3 : ¬ config.get "tech" = JSVal.str "less" :=
          fun e => h3 ((strictEqStr_iff _ _).2 e)
        simp [h1, h2, h3, n1, n2, n3]

/-! ### The configuration written on the first run -/

/-- C9, on the code: for every set of first-run answers the object written to
`kakadu.json` has a `bs` with the two keys `proxy` and `port` only, the port
being the text typed at the prompt (a string), so `notify`, `open`, `logLevel`,
`logPrefix` and `logFileChanges` of the initial `config.bs` are not in it;
`autoprefixer` keeps `browsers` and `cascade`, and `tech` is one of `styl`,
`scss`, `less`. -/
theorem kakadu_init_drops_bs_defaults (host port : String) (pick : Fin 3) :
    ((kakadu_init (promptAnswers host port pick)).get "bs").keys = ["proxy", "port"] ∧
    ((kakadu_init (promptAnswers host port pick)).get "bs").keys ≠ bsShapeKeys ∧
    ((kakadu_init (promptAnswers host port pick)).get "bs").get "port" = JSVal.str port ∧
    ((kakadu_init (promptAnswers host port pick)).get "bs").get "notify" = JSVal.undefined ∧
    ((kakadu_init (promptAnswers host port pick)).get "autoprefixer").keys =
      ["browsers", "cascade"] ∧
    (kakadu_init (promptAnswers host port pick)).keys = ["bs", "autoprefixer", "tech"] ∧
    ((kakadu_init (promptAnswers host port pick)).get "tech" = JSVal.str "styl" ∨
      (kakadu_init (promptAnswers host port pick)).get "tech" = JSVal.str "scss" ∨
      (kakadu_init (promptAnswers host port pick)).get "tech" = JSVal.str "less") ∧
    ((kakadu_init (promptAnswers "localhost" "7200" 1)).get "bs").keys = ["proxy", "port"] := by
  refine ⟨rfl, ?_, rfl, rfl, rfl, rfl, ?_, rfl⟩
  · rw [show ((kakadu_init (promptAnswers host port pick)).get "bs").keys = ["proxy", "port"]
      from rfl]
    decide
  fin_cases pick
  · exact Or.inl rfl
  · exact Or.inr (Or.inl rfl)
  · exact Or.inr (Or.inr rfl)

/-! ### The snippet rule -/


theorem toNat_ofNat_of_lt (k : Nat) (h : k < 55296) : (Char.ofNat k).toNat = k := by
  have hv : k.isValidChar := Or.inl h
  simp only [Char.ofNat, hv, dite_true]
  rfl

theorem toUpper_toNat (c : Char) :
    c.toUpper.toNat = if 97 ≤ c.toNat ∧ c.toNat ≤ 122 then c.toNat - 32 else c.toNat := by
  unfold Char.toUpper
  simp only [ge_iff_le]
  split
  · exact toNat_ofNat_of_lt _ (by omega)
  · rfl

theorem toLower_toNat (c : Char) :
    c.toLower.toNat = if 65 ≤ c.toNat ∧ c.toNat ≤ 90 then c.toNat + 32 else c.toNat := by
  unfold Char.toLower
  simp only [ge_iff_le]
  split
  · exact toNat_ofNat_of_lt _ (by omega)
  · rfl

theorem char_eq_of_toNat (c d : Char) (h : c.toNat = d.toNat) : c = d :=
  Char.ext (UInt32.ext h)

theorem ciEq_iff (p c : Char) : ciEq p c = true ↔ c.toUpper.toNat = p.toUpper.toNat := by
  unfold ciEq
  rw [beq_iff_eq]
  constructor
  · intro h; rw [h]
  · exact char_eq_of_toNat _ _

/-- For a pattern character that is a lower-case letter or no letter at all,
matching under the `i` flag is equality after bringing the input to lower case. -/
theorem ciEq_iff_toLower (p c : Char) (hp : p.toNat < 65 ∨ 90 < p.toNat) :
    ciEq p c = true ↔ c.toLower = p := by
  rw [ciEq_iff, toUpper_toNat, toUpper_toNat]
  constructor
  · intro h
    apply char_eq_of_toNat
    rw [toLower_toNat]
    split at h <;> split at h <;> split <;> omega
  · intro h
    have h2 := congrArg Char.toNat h
    rw [toLower_toNat] at h2
    split at h2 <;> split <;> split <;> omega

theorem headPattern_lower : ∀ p ∈ headPattern, p.toNat < 65 ∨ 90 < p.toNat := by
  decide

theorem forall₂_ciEq_iff (pat l : List Char) (hpat : ∀ p ∈ pat, p.toNat < 65 ∨ 90 < p.toNat) :
    List.Forall₂ (fun p c => ciEq p c = true) pat l ↔ l.map Char.toLower = pat := by
  induction pat generalizing l with
  | nil =>
    cases l <;> simp
  | cons p ps ih =>
    cases l with
    | nil => simp
    | cons c cs =>
      have hp := hpat p (List.mem_cons_self _ _)
      have hps : ∀ q ∈ ps, q.toNat < 65 ∨ 90 < q.toNat :=
        fun q hq => hpat q (List.mem_cons_of_mem _ hq)
      simp [List.forall₂_cons, ih cs hps, ciEq_iff_toLower p c hp]

theorem matchAt_sound (pat s : List Char) (r : List Char × List Char)
    (h : matchAt pat s = some r) :
    s = r.1 ++ r.2 ∧ List.Forall₂ (fun p c => ciEq p c = true) pat r.1 := by
  induction pat generalizing s r with
  | nil =>
    simp [matchAt] at h
    subst h
    simp
  | cons p ps ih =>
    cases s with
    | nil => simp [matchAt] at h
    | cons c cs =>
      simp only [matchAt] at h
      split at h
      · rename_i hc
        cases hm : matchAt ps cs with
        | none => simp [hm] at h
        | some r' =>
          simp [hm] at h
          subst h
          obtain ⟨h1, h2⟩ := ih cs r' hm
          exact ⟨by simp [← h1], List.Forall₂.cons hc h2⟩
      · simp at h

theorem matchAt_complete (pat m post : List Char)
    (h : List.Forall₂ (fun p c => ciEq p c = true) pat m) :
    matchAt pat (m ++ post) = some (m, post) := by
  induction h with
  | nil => simp [matchAt]
  | cons hc _ ih => simp [matchAt, hc, ih]

theorem matchAt_head_iff (s m post : List Char) :
    matchAt headPattern s = some (m, post) ↔ s = m ++ post ∧ HeadMatchL m := by
  unfold HeadMatchL
  rw [← forall₂_ciEq_iff headPattern m headPattern_lower]
  constructor
  · intro h
    exact matchAt_sound _ _ _ h
  · rintro ⟨h1, h2⟩
    rw [h1]
    exact matchAt_complete _ _ _ h2


theorem replaceFirst_of_none (pat : List Char) (f : List Char → List Char) (l : List Char)
    (h : ∀ pre m post, l = pre ++ m ++ post →
      ¬ List.Forall₂ (fun p c => ciEq p c = true) pat m) :
    replaceFirst pat f l = l := by
  induction l with
  | nil => rfl
  | cons c cs ih =>
    cases hm : matchAt pat (c :: cs) with
    | some r =>
      obtain ⟨h1, h2⟩ := matchAt_sound _ _ _ hm
      exact absurd h2 (h [] r.1 r.2 (by simpa using h1))
    | none =>
      simp only [replaceFirst, hm]
      rw [ih]
      intro pre m post hcs
      exact h (c :: pre) m post (by simp [hcs])

theorem replaceFirst_of_first (pat : List Char) (f : List Char → List Char)
    (pre m post : List Char) (hpat : pat ≠ [])
    (hm : List.Forall₂ (fun p c => ciEq p c = true) pat m)
    (hfirst : ∀ pre' m' post', pre ++ m ++ post = pre' ++ m' ++ post' →
      List.Forall₂ (fun p c => ciEq p c = true) pat m' → pre.length ≤ pre'.length) :
    replaceFirst pat f (pre ++ m ++ post) = pre ++ f m ++ post := by
  induction pre with
  | nil =>
    cases m with
    | nil =>
      cases hm
      exact absurd rfl hpat
    | cons c cs =>
      have := matchAt_complete pat (c :: cs) post hm
      simp only [List.nil_append, List.cons_append] at this ⊢
      simp only [replaceFirst, this]
  | cons a pre ih =>
    cases hma : matchAt pat (a :: pre ++ m ++ post) with
    | some r =>
      obtain ⟨h1, h2⟩ := matchAt_sound _ _ _ hma
      have := hfirst [] r.1 r.2 (by simpa using h1) h2
      simp at this
    | none =>
      simp only [List.cons_append] at hma ⊢
      simp only [replaceFirst, hma]
      rw [ih]
      intro pre' m' post' hdec hm'
      have := hfirst (a :: pre') m' post' (by simp [hdec]) hm'
      simpa using this

theorem replaceFirst_of_pos (f : List Char → List Char) (l : List Char)
    (h : 0 < headMatchesL l) :
    ∃ pre m post, l = pre ++ m ++ post ∧ HeadMatchL m ∧
      replaceFirst headPattern f l = pre ++ f m ++ post := by
  induction l with
  | nil => simp [headMatchesL] at h
  | cons c cs ih =>
    cases hm : matchAt headPattern (c :: cs) with
    | some r =>
      obtain ⟨m, post⟩ := r
      obtain ⟨h1, h2⟩ := (matchAt_head_iff _ _ _).1 hm
      exact ⟨[], m, post, by simpa using h1, h2, by simp [replaceFirst, hm]⟩
    | none =>
      simp only [headMatchesL, hm, Option.isSome_none, Bool.false_eq_true, if_false,
        Nat.zero_add] at h
      obtain ⟨pre, m, post, h1, h2, h3⟩ := ih h
      exact ⟨c :: pre, m, post, by simp [h1], h2, by simp [replaceFirst, hm, h3]⟩

theorem no_match_of_zero (l : List Char) (h : headMatchesL l = 0) :
    ∀ pre m post, l = pre ++ m ++ post → ¬ HeadMatchL m := by
  intro pre
  induction pre generalizing l with
  | nil =>
    intro m post hl hm
    have := (matchAt_head_iff l m post).2 ⟨by simpa using hl, hm⟩
    cases l with
    | nil =>
      have h0 : m = [] := by
        have := congrArg List.length hl
        simp at this
        exact List.length_eq_zero.1 (by omega)
      subst h0
      exact absurd hm (by unfold HeadMatchL; decide)
    | cons c cs =>
      simp [headMatchesL, this] at h
  | cons a pre ih =>
    intro m post hl
    cases l with
    | nil => simp at hl
    | cons c cs =>
      simp only [headMatchesL] at h
      have hcs : headMatchesL cs = 0 := by omega
      simp only [List.cons_append, List.cons.injEq] at hl
      exact ih cs hcs m post hl.2


theorem isPrefixOf_append_lt (pt s t : List Char) (hpt : '<' ∉ pt)
    (ht : t = [] ∨ ∃ t', t = '<' :: t') (hs : s ≠ []) (c : Char) :
    (c :: pt).isPrefixOf (s ++ t) = (c :: pt).isPrefixOf s := by
  cases s with
  | nil => exact absurd rfl hs
  | cons a s =>
    simp only [List.cons_append, List.isPrefixOf]
    congr 1
    clear hs
    induction pt generalizing s with
    | nil => cases s <;> cases t <;> simp [List.isPrefixOf]
    | cons q qs ih =>
      have hq : q ≠ '<' := fun e => hpt (by simp [e])
      have hqs : '<' ∉ qs := fun e => hpt (List.mem_cons_of_mem _ e)
      cases s with
      | nil =>
        rcases ht with ht | ⟨t', ht⟩
        · subst ht; simp [List.isPrefixOf]
        · subst ht
          simp [List.isPrefixOf, hq]
      | cons b s =>
        simp only [List.cons_append, List.isPrefixOf]
        rw [ih hqs s]

theorem countOcc_append_lt (pat s t : List Char) (hpat : OpensTag pat)
    (ht : t = [] ∨ ∃ t', t = '<' :: t') :
    countOcc pat (s ++ t) = countOcc pat s + countOcc pat t := by
  obtain ⟨pt, rfl, hpt⟩ := hpat
  induction s with
  | nil => simp [countOcc]
  | cons a s ih =>
    have := isPrefixOf_append_lt pt (a :: s) t hpt ht (by simp) '<'
    simp only [List.cons_append] at this ⊢
    simp only [countOcc, this, ih]
    omega

/-- A closing tag in front of a text adds no opening tag: the text `s` starts
with `</` and has no other `<`, and the tag looked for has a letter after its
`<`. -/
theorem countOcc_closing (pt s t : List Char) (q : Char) (hq : q ≠ '/')
    (hs : '<' ∉ s) :
    countOcc ('<' :: q :: pt) ('<' :: '/' :: s ++ t) = countOcc ('<' :: q :: pt) t := by
  have hno : ∀ u : List Char, '<' ∉ u →
      countOcc ('<' :: q :: pt) (u ++ t) = countOcc ('<' :: q :: pt) t := by
    intro u hu
    induction u with
    | nil => rfl
    | cons a u ih =>
      have ha : ¬ '<' = a := fun e => hu (by rw [e]; exact List.mem_cons_self _ _)
      have hu' : '<' ∉ u := fun e => hu (List.mem_cons_of_mem _ e)
      simp [countOcc, List.isPrefixOf, ha, ih hu']
  have h2 := hno ('/' :: s) (by simpa using hs)
  simp only [List.cons_append] at h2 ⊢
  simp only [countOcc, List.isPrefixOf] at h2 ⊢
  have : ¬ q = '/' := hq
  simp [this] at h2 ⊢
  exact h2


theorem countOcc_inject (q : Char) (pt pre m' post sn css' scrOpen cl : List Char)
    (hq : q ≠ '/') (hlt : '<' ∉ q :: pt) (hcl : '<' ∉ cl) (hm' : '<' ∉ m') :
    countOcc ('<' :: q :: pt)
        (pre ++ (('<' :: css') ++ (('<' :: scrOpen) ++ ('<' :: '/' :: cl)) ++ sn ++
          ('<' :: '/' :: m')) ++ post) =
      countOcc ('<' :: q :: pt) (pre ++ ('<' :: '/' :: m') ++ post) +
        countOcc ('<' :: q :: pt) ('<' :: css') +
        countOcc ('<' :: q :: pt) ('<' :: scrOpen) +
        countOcc ('<' :: q :: pt) sn := by
  have hop : OpensTag ('<' :: q :: pt) := ⟨q :: pt, rfl, hlt⟩
  have e5 : countOcc ('<' :: q :: pt) ('<' :: '/' :: m' ++ post) =
      countOcc ('<' :: q :: pt) post := countOcc_closing pt m' post q hq hm'
  have e4 : countOcc ('<' :: q :: pt) (sn ++ ('<' :: '/' :: m' ++ post)) =
      countOcc ('<' :: q :: pt) sn + countOcc ('<' :: q :: pt) post := by
    rw [countOcc_append_lt _ sn ('<' :: '/' :: m' ++ post) hop (Or.inr ⟨_, rfl⟩), e5]
  have e3 : countOcc ('<' :: q :: pt)
      ('<' :: '/' :: cl ++ (sn ++ ('<' :: '/' :: m' ++ post))) =
      countOcc ('<' :: q :: pt) sn + countOcc ('<' :: q :: pt) post := by
    rw [countOcc_closing pt cl _ q hq hcl, e4]
  have e2 : countOcc ('<' :: q :: pt)
      (('<' :: scrOpen) ++ ('<' :: '/' :: cl ++ (sn ++ ('<' :: '/' :: m' ++ post)))) =
      countOcc ('<' :: q :: pt) ('<' :: scrOpen) +
        (countOcc ('<' :: q :: pt) sn + countOcc ('<' :: q :: pt) post) := by
    rw [countOcc_append_lt _ ('<' :: scrOpen)
      ('<' :: '/' :: cl ++ (sn ++ ('<' :: '/' :: m' ++ post))) hop (Or.inr ⟨_, rfl⟩), e3]
  have e1 : countOcc ('<' :: q :: pt)
      (('<' :: css') ++ (('<' :: scrOpen) ++
        ('<' :: '/' :: cl ++ (sn ++ ('<' :: '/' :: m' ++ post))))) =
      countOcc ('<' :: q :: pt) ('<' :: css') +
        (countOcc ('<' :: q :: pt) ('<' :: scrOpen) +
          (countOcc ('<' :: q :: pt) sn + countOcc ('<' :: q :: pt) post)) := by
    rw [countOcc_append_lt _ ('<' :: css')
      (('<' :: scrOpen) ++ ('<' :: '/' :: cl ++ (sn ++ ('<' :: '/' :: m' ++ post))))
      hop (Or.inr ⟨_, rfl⟩), e2]
  have e0 : countOcc ('<' :: q :: pt)
      (pre ++ (('<' :: css') ++ (('<' :: scrOpen) ++
        ('<' :: '/' :: cl ++ (sn ++ ('<' :: '/' :: m' ++ post)))))) =
      countOcc ('<' :: q :: pt) pre + (countOcc ('<' :: q :: pt) ('<' :: css') +
        (countOcc ('<' :: q :: pt) ('<' :: scrOpen) +
          (countOcc ('<' :: q :: pt) sn + countOcc ('<' :: q :: pt) post))) := by
    rw [countOcc_append_lt _ pre
      (('<' :: css') ++ (('<' :: scrOpen) ++
        ('<' :: '/' :: cl ++ (sn ++ ('<' :: '/' :: m' ++ post)))))
      hop (Or.inr ⟨_, rfl⟩), e1]
  have r0 : countOcc ('<' :: q :: pt) (pre ++ ('<' :: '/' :: m' ++ post)) =
      countOcc ('<' :: q :: pt) pre + countOcc ('<' :: q :: pt) post := by
    rw [countOcc_append_lt _ pre ('<' :: '/' :: m' ++ post) hop (Or.inr ⟨_, rfl⟩), e5]
  simp only [List.append_assoc, List.cons_append] at e0 r0 ⊢
  rw [e0, r0]
  omega

theorem toLower_eq_nonletter (c d : Char) (hd : d.toNat < 97 ∨ 122 < d.toNat)
    (h : c.toLower = d) : c = d := by
  apply char_eq_of_toNat
  have h2 := congrArg Char.toNat h
  rw [toLower_toNat] at h2
  split at h2 <;> omega

theorem toLower_ne_lt (c d : Char) (hd : d ≠ '<') (h : c.toLower = d) : c ≠ '<' := by
  intro e
  subst e
  exact hd h.symm

theorem headMatch_shape (m : List Char) (h : HeadMatchL m) :
    ∃ m', m = '<' :: '/' :: m' ∧ '<' ∉ m' := by
  unfold HeadMatchL at h
  rw [show headPattern = ['<', '/', 'h', 'e', 'a', 'd', '>'] from rfl] at h
  simp only [List.map_eq_cons_iff, List.map_eq_nil_iff] at h
  obtain ⟨c0, _, rfl, h0, c1, _, rfl, h1, c2, _, rfl, h2, c3, _, rfl, h3, c4, _, rfl, h4,
    c5, _, rfl, h5, c6, _, rfl, h6, rfl⟩ := h
  have e0 := toLower_eq_nonletter c0 '<' (by decide) h0
  have e1 := toLower_eq_nonletter c1 '/' (by decide) h1
  subst e0 e1
  refine ⟨[c2, c3, c4, c5, c6], rfl, ?_⟩
  have n2 := toLower_ne_lt c2 _ (by decide) h2
  have n3 := toLower_ne_lt c3 _ (by decide) h3
  have n4 := toLower_ne_lt c4 _ (by decide) h4
  have n5 := toLower_ne_lt c5 _ (by decide) h5
  have n6 := toLower_ne_lt c6 _ (by decide) h6
  simp only [List.mem_cons, List.mem_singleton, List.not_mem_nil, or_false, not_or]
  exact ⟨Ne.symm n2, Ne.symm n3, Ne.symm n4, Ne.symm n5, Ne.symm n6⟩

theorem isHeadMatch_iff (m : String) : IsHeadMatch m ↔ HeadMatchL m.toList := by
  unfold IsHeadMatch HeadMatchL toLowerCase headPattern
  rw [String.ext_iff]
  exact Iff.rfl

theorem rewrite_toList (snippet body : String) :
    (rewrite snippet body).toList =
      replaceFirst headPattern
        (fun m => cssSnippet.toList ++ scriptSnippet.toList ++ snippet.toList ++ m)
        body.toList := by
  unfold rewrite fn
  simp only [String.toList, String.data_append]

theorem cssSnippet_chars : cssSnippet.toList = '<' :: cssTail := by rfl

theorem scriptSnippet_chars :
    scriptSnippet.toList = ('<' :: scriptOpenTail) ++ ('<' :: '/' :: "script>".toList) := by
  rfl

theorem snippet_counts :
    countOcc "<link".toList ('<' :: cssTail) = 1 ∧
    countOcc "<link".toList ('<' :: scriptOpenTail) = 0 ∧
    countOcc "<script".toList ('<' :: cssTail) = 0 ∧
    countOcc "<script".toList ('<' :: scriptOpenTail) = 1 := by
  decide

theorem toList_append3 (body pre m post : String) (h : body = pre ++ m ++ post) :
    body.toList = pre.toList ++ m.toList ++ post.toList := by
  subst h
  simp only [String.toList, String.data_append]

/-- C2: for a body written as `pre ++ m ++ post` with `m` the first match of
`/<\/head>/i`, the rewrite gives `pre ++ fn(snippet, m) ++ post`, where
`fn(snippet, m)` is the stylesheet link `<link rel="stylesheet" ...>`, the script
tag `<script id="___kakadu___" ...>...</script>`, the snippet and `m` itself: the
link and the script tag go right before the closing head tag, `pre` and `post`
are kept as they are, and a `</HEAD>` in upper case is matched and kept in its
case. -/
theorem rewrite_at_first_match (snippet body pre m post : String)
    (hbody : body = pre ++ m ++ post) (hm : IsHeadMatch m)
    (hfirst : ∀ pre' m' post' : String, body = pre' ++ m' ++ post' → IsHeadMatch m' →
      pre.length ≤ pre'.length) :
    rewrite snippet body = pre ++ fn snippet m ++ post ∧
    fn snippet m =
      "<link rel=\"stylesheet\" type=\"text/css\" href=\"/app.css\">" ++
        ("<script id=\"___kakadu___\" type=\"text/javascript\">" ++
        "var ks = document.createElement(\"script\");" ++
        "ks.setAttribute(\"id\", \"___kakadu_script___\");" ++
        "ks.setAttribute(\"type\", \"text/javascript\");" ++
        "ks.src = \"/app.js\";" ++
        "document.getElementsByTagName(\"head\").item(0).appendChild(ks);" ++
        "</script>") ++
        snippet ++ m ∧
    rewrite snippet body =
      pre ++ "<link rel=\"stylesheet\" type=\"text/css\" href=\"/app.css\">" ++
        ("<script id=\"___kakadu___\" type=\"text/javascript\">" ++
        "var ks = document.createElement(\"script\");" ++
        "ks.setAttribute(\"id\", \"___kakadu_script___\");" ++
        "ks.setAttribute(\"type\", \"text/javascript\");" ++
        "ks.src = \"/app.js\";" ++
        "document.getElementsByTagName(\"head\").item(0).appendChild(ks);" ++
        "</script>") ++
        snippet ++ m ++ post ∧
    rewrite "<b>" "<html><HEAD></HEAD></html>" =
      "<html><HEAD>" ++
        "<link rel=\"stylesheet\" type=\"text/css\" href=\"/app.css\">" ++
        ("<script id=\"___kakadu___\" type=\"text/javascript\">" ++
        "var ks = document.createElement(\"script\");" ++
        "ks.setAttribute(\"id\", \"___kakadu_script___\");" ++
        "ks.setAttribute(\"type\", \"text/javascript\");" ++
        "ks.src = \"/app.js\";" ++
        "document.getElementsByTagName(\"head\").item(0).appendChild(ks);" ++
        "</script>") ++
        "<b>" ++ "</HEAD>" ++ "</html>" := by
  have hscript : scriptSnippet =
      "<script id=\"___kakadu___\" type=\"text/javascript\">" ++
        "var ks = document.createElement(\"script\");" ++
        "ks.setAttribute(\"id\", \"___kakadu_script___\");" ++
        "ks.setAttribute(\"type\", \"text/javascript\");" ++
        "ks.src = \"/app.js\";" ++
        "document.getElementsByTagName(\"head\").item(0).appendChild(ks);" ++
        "</script>" := rfl
  have hfn : fn snippet m =
      "<link rel=\"stylesheet\" type=\"text/css\" href=\"/app.css\">" ++
        ("<script id=\"___kakadu___\" type=\"text/javascript\">" ++
        "var ks = document.createElement(\"script\");" ++
        "ks.setAttribute(\"id\", \"___kakadu_script___\");" ++
        "ks.setAttribute(\"type\", \"text/javascript\");" ++
        "ks.src = \"/app.js\";" ++
        "document.getElementsByTagName(\"head\").item(0).appendChild(ks);" ++
        "</script>") ++
        snippet ++ m := by
    unfold fn cssSnippet
    rw [hscript]
  have hmain : rewrite snippet body = pre ++ fn snippet m ++ post := by
    apply String.ext
    have hl := toList_append3 body pre m post hbody
    have hm2 : List.Forall₂ (fun p c => ciEq p c = true) headPattern m.toList :=
      (forall₂_ciEq_iff _ _ headPattern_lower).2 ((isHeadMatch_iff m).1 hm)
    have key := replaceFirst_of_first headPattern
      (fun m => cssSnippet.toList ++ scriptSnippet.toList ++ snippet.toList ++ m)
      pre.toList m.toList post.toList (by decide) hm2 (by
        intro pre' m' post' hdec hm'
        have hb : body = String.mk pre' ++ String.mk m' ++ String.mk post' := by
          apply String.ext
          simp only [String.data_append]
          rw [← hdec]
          exact hl
        have hmm : IsHeadMatch (String.mk m') :=
          (isHeadMatch_iff _).2 ((forall₂_ciEq_iff _ _ headPattern_lower).1 hm')
        exact hfirst (String.mk pre') (String.mk m') (String.mk post') hb hmm)
    have h1 := rewrite_toList snippet body
    rw [hl, key] at h1
    simp only [String.toList] at h1
    rw [h1]
    simp only [fn, String.data_append, String.toList, List.append_assoc]
  refine ⟨hmain, hfn, ?_, by decide⟩
  rw [hmain, hfn]
  simp only [String.append_assoc]

theorem rewrite_at_first_match_witness :
    rewrite "" "<p></HEAD>x" =
      "<p>" ++ "<link rel=\"stylesheet\" type=\"text/css\" href=\"/app.css\">" ++
        ("<script id=\"___kakadu___\" type=\"text/javascript\">" ++
        "var ks = document.createElement(\"script\");" ++
        "ks.setAttribute(\"id\", \"___kakadu_script___\");" ++
        "ks.setAttribute(\"type\", \"text/javascript\");" ++
        "ks.src = \"/app.js\";" ++
        "document.getElementsByTagName(\"head\").item(0).appendChild(ks);" ++
        "</script>") ++
        "" ++ "</HEAD>" ++ "x" := by
  refine (rewrite_at_first_match "" "<p></HEAD>x" "<p>" "</HEAD>" "x" (by decide)
    (by unfold IsHeadMatch; decide) ?_).2.2.1
  intro pre' m' post' hb hm'
  have hl := toList_append3 _ pre' m' post' hb
  have hmatch := (matchAt_head_iff (m'.toList ++ post'.toList) m'.toList post'.toList).2
    ⟨rfl, (isHeadMatch_iff m').1 hm'⟩
  have hdrop : ("<p></HEAD>x".toList).drop pre'.length = m'.toList ++ post'.toList := by
    rw [hl, List.append_assoc]
    exact List.drop_left _ _
  rw [← hdrop] at hmatch
  have hnone : ∀ k, k < 3 → matchAt headPattern (("<p></HEAD>x".toList).drop k) = none := by
    decide
  by_contra hlt
  have hk : pre'.length < 3 := by
    have : ("<p>" : String).length = 3 := by decide
    omega
  rw [hnone _ hk] at hmatch
  exact Option.noConfusion hmatch

/-- C3: a body without a match of `/<\/head>/i` comes back from the rewrite
unchanged, character for character; the rewrite is a total function and raises
nothing. -/
theorem rewrite_without_match (snippet body : String)
    (h : ∀ pre m post : String, body = pre ++ m ++ post → ¬ IsHeadMatch m) :
    rewrite snippet body = body := by
  apply String.ext
  have h1 := rewrite_toList snippet body
  simp only [String.toList] at h1
  rw [h1]
  apply replaceFirst_of_none
  intro pre m post hdec hm
  have hb : body = String.mk pre ++ String.mk m ++ String.mk post := by
    apply String.ext
    simp only [String.data_append]
    exact hdec
  exact h _ _ _ hb ((isHeadMatch_iff _).2 ((forall₂_ciEq_iff _ _ headPattern_lower).1 hm))

theorem rewrite_without_match_witness :
    rewrite "<script></script>" "<html><body><p>head</p></body></html>" =
      "<html><body><p>head</p></body></html>" := by
  apply rewrite_without_match
  intro pre m post hb hm
  have hl := toList_append3 _ pre m post hb
  exact no_match_of_zero _ (by decide) pre.toList m.toList post.toList hl
    ((isHeadMatch_iff m).1 hm)

/-- C8, as stated, fails: the text `fn(snippet, match)` inserts holds the snippet
of the development server too, and that snippet is itself a `<script` tag, so for
a document with exactly one `</head>` the rewritten document has two more
`<script` tags than the input, and `fn(snippet, match)` holds two. -/
theorem inject_two_script_tags :
    headMatches "<html><head></head><body></body></html>" = 1 ∧
    countScript (fn "<script async src=\"/browser-sync/browser-sync-client.js\"></script>"
      "</head>") = 2 ∧
    countScript (rewrite "<script async src=\"/browser-sync/browser-sync-client.js\"></script>"
      "<html><head></head><body></body></html>") =
      countScript "<html><head></head><body></body></html>" + 2 := by
  decide

/-- C8, amended: for every document that contains a match of `/<\/head>/i` exactly
once, of any length, and every snippet, the rewritten document contains one more
`<link` tag and one more `<script` tag than the input and the snippet together:
the text `fn` itself adds around the snippet and the match holds exactly one
`<link` opening tag and exactly one `<script` opening tag. -/
theorem inject_tag_counts (snippet doc : String) (h : headMatches doc = 1) :
    countLink (rewrite snippet doc) = countLink doc + 1 + countLink snippet ∧
    countScript (rewrite snippet doc) = countScript doc + 1 + countScript snippet ∧
    countLink (cssSnippet ++ scriptSnippet) = 1 ∧
    countScript (cssSnippet ++ scriptSnippet) = 1 := by
  obtain ⟨pre, m, post, hl, hm, hrep⟩ := replaceFirst_of_pos
    (fun m => cssSnippet.toList ++ scriptSnippet.toList ++ snippet.toList ++ m)
    doc.toList (by unfold headMatches at h; omega)
  obtain ⟨m', rfl, hm'⟩ := headMatch_shape m hm
  have hcl : '<' ∉ "script>".toList := by decide
  obtain ⟨c1, c2, c3, c4⟩ := snippet_counts
  refine ⟨?_, ?_, by decide, by decide⟩
  · unfold countLink
    rw [rewrite_toList, hrep, hl, cssSnippet_chars, scriptSnippet_chars]
    have := countOcc_inject 'l' "ink".toList pre m' post snippet.toList cssTail
      scriptOpenTail "script>".toList (by decide) (by decide) hcl hm'
    rw [show "<link".toList = '<' :: 'l' :: "ink".toList from rfl] at c1 c2 ⊢
    rw [this, c1, c2]
  · unfold countScript
    rw [rewrite_toList, hrep, hl, cssSnippet_chars, scriptSnippet_chars]
    have := countOcc_inject 's' "cript".toList pre m' post snippet.toList cssTail
      scriptOpenTail "script>".toList (by decide) (by decide) hcl hm'
    rw [show "<script".toList = '<' :: 's' :: "cript".toList from rfl] at c3 c4 ⊢
    rw [this, c3, c4]

theorem inject_tag_counts_witness :
    countLink (rewrite "" "<html><head></head><body></body></html>") =
      countLink "<html><head></head><body></body></html>" + 1 + countLink "" :=
  (inject_tag_counts "" "<html><head></head><body></body></html>" (by decide)).1


/-! ### The order of the start-up steps -/

theorem exec_trace (s : Loop) (p : Prog) :
    (s.exec p).trace = s.trace ++ (runTurn p).events := rfl

theorem step_trace (config : JSVal) (escapes : Bool) (s : Loop) (i : Input) :
    ∃ more, (step config escapes s i).trace = s.trace ++ more := by
  cases i with
  | complete i =>
    simp only [step]
    split
    · exact ⟨[], by simp⟩
    · split
      · exact ⟨_, rfl⟩
      · exact ⟨[], by simp⟩
  | fileChange compiles =>
    simp only [step]
    split
    · exact ⟨[], by simp⟩
    · split
      · exact ⟨_, rfl⟩
      · exact ⟨[], by simp⟩

theorem foldl_trace (config : JSVal) (escapes : Bool) (inputs : List Input) (s : Loop) :
    ∃ more, (inputs.foldl (step config escapes) s).trace = s.trace ++ more := by
  induction inputs generalizing s with
  | nil => exact ⟨[], by simp⟩
  | cons i is ih =>
    obtain ⟨m1, h1⟩ := step_trace config escapes s i
    obtain ⟨m2, h2⟩ := ih (step config escapes s i)
    exact ⟨m1 ++ m2, by rw [List.foldl_cons, h2, h1, List.append_assoc]⟩

theorem foldl_crashed (config : JSVal) (escapes : Bool) (inputs : List Input) (s : Loop)
    (h : s.crashed = true) : inputs.foldl (step config escapes) s = s := by
  induction inputs with
  | nil => rfl
  | cons i is ih =>
    have : step config escapes s i = s := by
      cases i <;> simp [step, h]
    rw [List.foldl_cons, this, ih]

theorem precedes_append (a b : Event) (tr more : List Event) (ha : a ∈ tr) (hb : b ∉ tr)
    (hb2 : b ∈ tr ++ more) : precedes a b (tr ++ more) = true := by
  unfold precedes
  have h1 : a ∈ tr ++ more := List.mem_append_left _ ha
  have h2 : (tr ++ more).indexOf a < tr.length := by
    rw [List.indexOf_append_of_mem ha]
    exact List.indexOf_lt_length.2 ha
  have h3 : tr.length ≤ (tr ++ more).indexOf b := by
    rw [List.indexOf_append_of_not_mem hb]
    omega
  simp only [h1, hb2, decide_True, Bool.true_and, decide_eq_true_eq]
  omega

theorem ordered_append (a b : Event) (tr evs : List Event) (h1 : Ordered a b tr)
    (h2 : Ordered a b evs) : Ordered a b (tr ++ evs) := by
  intro hb
  by_cases hbt : b ∈ tr
  · have h := h1 hbt
    unfold precedes at h ⊢
    simp only [Bool.and_eq_true, decide_eq_true_eq] at h ⊢
    obtain ⟨⟨ha, _⟩, hlt⟩ := h
    refine ⟨⟨List.mem_append_left _ ha, hb⟩, ?_⟩
    rw [List.indexOf_append_of_mem ha, List.indexOf_append_of_mem hbt]
    exact hlt
  · have hbe : b ∈ evs := by
      rcases List.mem_append.1 hb with h | h
      · exact absurd h hbt
      · exact h
    have h := h2 hbe
    unfold precedes at h ⊢
    simp only [Bool.and_eq_true, decide_eq_true_eq] at h ⊢
    obtain ⟨⟨ha, _⟩, hlt⟩ := h
    refine ⟨⟨List.mem_append_right _ ha, hb⟩, ?_⟩
    rw [List.indexOf_append_of_not_mem hbt]
    by_cases hat : a ∈ tr
    · rw [List.indexOf_append_of_mem hat]
      have := List.indexOf_lt_length.2 hat
      omega
    · rw [List.indexOf_append_of_not_mem hat]
      omega

theorem step_invariant (R P : List Event → Prop)
    (happ : ∀ tr evs, R tr → P evs → R (tr ++ evs)) (config : JSVal) (escapes : Bool)
    (hw : ∀ ok, AllTurns P (runTaskBody escapes (stylesTask config .watcher ok)))
    (s : Loop) (i : Input) (hR : R s.trace) (hq : ∀ p ∈ s.queue, AllTurns P p) :
    R (step config escapes s i).trace ∧
      ∀ p ∈ (step config escapes s i).queue, AllTurns P p := by
  have hexec : ∀ (s' : Loop) (p : Prog), R s'.trace → (∀ q ∈ s'.queue, AllTurns P q) →
      AllTurns P p → R (s'.exec p).trace ∧ ∀ q ∈ (s'.exec p).queue, AllTurns P q := by
    intro s' p hR' hq' hp
    cases hp with
    | mk _ now after =>
      refine ⟨happ _ _ hR' now, ?_⟩
      intro q hqm
      rcases List.mem_append.1 hqm with h | h
      · exact hq' q h
      · exact after q h
  cases i with
  | complete i =>
    simp only [step]
    split
    · exact ⟨hR, hq⟩
    · split
      · rename_i p hp
        exact hexec _ p hR (fun q hqm => hq q (List.mem_of_mem_eraseIdx hqm))
          (hq p (List.get?_mem hp))
      · exact ⟨hR, hq⟩
  | fileChange compiles =>
    simp only [step]
    split
    · exact ⟨hR, hq⟩
    · split
      · exact hexec _ _ hR hq (hw compiles)
      · exact ⟨hR, hq⟩

theorem foldl_invariant (R P : List Event → Prop)
    (happ : ∀ tr evs, R tr → P evs → R (tr ++ evs)) (config : JSVal) (escapes : Bool)
    (hw : ∀ ok, AllTurns P (runTaskBody escapes (stylesTask config .watcher ok)))
    (inputs : List Input) (s : Loop) (hR : R s.trace) (hq : ∀ p ∈ s.queue, AllTurns P p) :
    R (inputs.foldl (step config escapes) s).trace := by
  induction inputs generalizing s with
  | nil => exact hR
  | cons i is ih =>
    obtain ⟨h1, h2⟩ := step_invariant R P happ config escapes hw s i hR hq
    exact ih _ h1 h2


theorem first_deferred (config : JSVal) (escapes fc : Bool) (inputs : List Input) :
    (Run.mk config .deferred escapes fc inputs).first =
      { trace := [.serverInitCalled, .watcherAttached],
        queue := [.emit .serverBound (runTaskBody escapes (stylesTask config .sequence fc))],
        crashed := false } := rfl

theorem first_immediate_some (config : JSVal) (escapes fc : Bool) (inputs : List Input)
    (x : Transform) (h : (stylesPreProcessor config).returned = some x) :
    (Run.mk config .immediate escapes fc inputs).first =
      { trace := [.serverInitCalled, .serverBound, .stylesStarted .sequence,
          .watcherAttached],
        queue := [.emit (if fc then .stylesCompiled .sequence else .stylesFailed .sequence)
          .halt],
        crashed := false } := by
  simp [Run.first, Loop.exec, startTask, proxyStartTask, bsInit, runTaskBody, stylesTask,
    Prog.andThen, runTurn, h]

theorem first_immediate_none (config : JSVal) (escapes fc : Bool) (inputs : List Input)
    (h : (stylesPreProcessor config).returned = none) :
    (Run.mk config .immediate escapes fc inputs).first =
      { trace := [.serverInitCalled, .serverBound, .stylesStarted .sequence,
          .stylesThrew .sequence] ++ (if escapes then [] else [.watcherAttached]),
        queue := [],
        crashed := escapes } := by
  cases escapes <;>
  simp [Run.first, Loop.exec, startTask, proxyStartTask, bsInit, runTaskBody, stylesTask,
    Prog.andThen, runTurn, h]

theorem runTurn_styles_some (config : JSVal) (escapes : Bool) (origin : Origin) (ok : Bool)
    (x : Transform) (h : (stylesPreProcessor config).returned = some x) :
    runTurn (runTaskBody escapes (stylesTask config origin ok)) =
      { events := [.stylesStarted origin],
        callbacks := [.emit (if ok then .stylesCompiled origin else .stylesFailed origin)
          .halt],
        threw := false } := by
  simp [runTaskBody, stylesTask, Prog.andThen, runTurn, h]

theorem runTurn_styles_none (config : JSVal) (escapes : Bool) (origin : Origin) (ok : Bool)
    (h : (stylesPreProcessor config).returned = none) :
    runTurn (runTaskBody escapes (stylesTask config origin ok)) =
      { events := [.stylesStarted origin, .stylesThrew origin],
        callbacks := [],
        threw := escapes } := by
  cases escapes <;> simp [runTaskBody, stylesTask, Prog.andThen, runTurn, h]

theorem allTurns_halt_emit (P : List Event → Prop) (e : Event) (h : P [e]) :
    AllTurns P (.emit e .halt) :=
  AllTurns.mk _ h (by intro cb hcb; simp [runTurn] at hcb)

/-- The turns of a run of `styles`, after the steps `pre` of the same turn. -/
theorem allTurns_styles (P : List Event → Prop) (config : JSVal) (escapes : Bool)
    (origin : Origin) (ok : Bool) (pre : List Event) (p : Prog)
    (hp : (runTurn p).events = pre ++
        (runTurn (runTaskBody escapes (stylesTask config origin ok))).events ∧
      (runTurn p).callbacks =
        (runTurn (runTaskBody escapes (stylesTask config origin ok))).callbacks)
    (hsome : (stylesPreProcessor config).returned ≠ none →
      P (pre ++ [.stylesStarted origin]) ∧ P [.stylesCompiled origin] ∧
        P [.stylesFailed origin])
    (hnone : (stylesPreProcessor config).returned = none →
      P (pre ++ [.stylesStarted origin, .stylesThrew origin])) :
    AllTurns P p := by
  cases h : (stylesPreProcessor config).returned with
  | none =>
    rw [runTurn_styles_none config escapes origin ok h] at hp
    refine AllTurns.mk _ ?_ ?_
    · rw [hp.1]; exact hnone h
    · intro cb hcb
      rw [hp.2] at hcb
      simp at hcb
  | some x =>
    rw [runTurn_styles_some config escapes origin ok x h] at hp
    obtain ⟨h1, h2, h3⟩ := hsome (by rw [h]; exact fun e => Option.noConfusion e)
    refine AllTurns.mk _ ?_ ?_
    · rw [hp.1]; exact h1
    · intro cb hcb
      rw [hp.2] at hcb
      simp only [List.mem_singleton] at hcb
      subst hcb
      cases ok
      · exact allTurns_halt_emit P _ h3
      · exact allTurns_halt_emit P _ h2


theorem first_facts (r : Run) :
    r.first.trace.head? = some Event.serverInitCalled ∧
    (∀ o, Event.stylesCompiled o ∉ r.first.trace) ∧
    Event.stylesStarted .watcher ∉ r.first.trace ∧
    (Event.watcherAttached ∈ r.first.trace ∨ r.first.crashed = true) ∧
    Ordered .serverBound (.stylesStarted .sequence) r.first.trace ∧
    (∀ p ∈ r.first.queue, AllTurns (Ordered .serverBound (.stylesStarted .sequence)) p) ∧
    ((stylesPreProcessor r.config).returned = none →
      ∀ p ∈ r.first.queue, AllTurns (fun evs => ∀ o, Event.stylesCompiled o ∉ evs) p) := by
  obtain ⟨config, t, escapes, fc, inputs⟩ := r
  cases t with
  | deferred =>
    rw [first_deferred]
    refine ⟨rfl, by intro o; simp, by simp, Or.inl (by simp), ?_, ?_, ?_⟩
    · intro h; simp at h
    · intro p hp
      simp only [List.mem_singleton] at hp
      subst hp
      refine allTurns_styles _ config escapes .sequence fc [.serverBound]
        (.emit .serverBound (runTaskBody escapes (stylesTask config .sequence fc)))
        ⟨rfl, rfl⟩ ?_ ?_
      · intro _
        refine ⟨fun _ => by decide, fun h => ?_, fun h => ?_⟩ <;> simp at h
      · intro _ _
        decide
    · intro hnone p hp
      simp only [List.mem_singleton] at hp
      subst hp
      refine allTurns_styles _ config escapes .sequence fc [.serverBound]
        (.emit .serverBound (runTaskBody escapes (stylesTask config .sequence fc)))
        ⟨rfl, rfl⟩ ?_ ?_
      · intro h; exact absurd hnone h
      · intro _ o; simp
  | immediate =>
    cases h : (stylesPreProcessor config).returned with
    | none =>
      rw [first_immediate_none config escapes fc inputs h]
      cases escapes
      · refine ⟨rfl, by intro o; simp, by simp, Or.inl (by simp), fun _ => by decide,
          by simp, by simp⟩
      · refine ⟨rfl, by intro o; simp, by simp, Or.inr rfl, fun _ => by decide,
          by simp, by simp⟩
    | some x =>
      rw [first_immediate_some config escapes fc inputs x h]
      refine ⟨rfl, by intro o; simp, by simp, Or.inl (by simp), fun _ => rfl, ?_,
        by simp⟩
      intro p hp
      simp only [List.mem_singleton] at hp
      subst hp
      apply allTurns_halt_emit
      intro hb
      cases fc <;> simp at hb

theorem allTurns_watcher_ordered (config : JSVal) (escapes ok : Bool) :
    AllTurns (Ordered .serverBound (.stylesStarted .sequence))
      (runTaskBody escapes (stylesTask config .watcher ok)) := by
  apply allTurns_styles _ config escapes .watcher ok [] _ ⟨rfl, rfl⟩
  · intro _
    refine ⟨fun h => ?_, fun h => ?_, fun h => ?_⟩ <;> simp at h
  · intro _ h
    simp at h

theorem allTurns_watcher_none (config : JSVal) (escapes ok : Bool)
    (hnone : (stylesPreProcessor config).returned = none) :
    AllTurns (fun evs => ∀ o, Event.stylesCompiled o ∉ evs)
      (runTaskBody escapes (stylesTask config .watcher ok)) := by
  apply allTurns_styles _ config escapes .watcher ok [] _ ⟨rfl, rfl⟩
  · intro h; exact absurd hnone h
  · intro _ o; simp

/-- C5, as stated, fails: in the start-up run the watcher is attached right
after `bs.init` is called, before the server reports bound and before the first
compilation; the stated order (bound, compiled, watcher attached) does not hold,
whether `bs.init` fires its callback in a later turn or inside the call. -/
theorem strict_order_violated :
    startTrace ⟨.obj [("tech", .str "scss")], .deferred, false, true,
        [.complete 0, .complete 0]⟩ =
      [.serverInitCalled, .watcherAttached, .serverBound, .stylesStarted .sequence,
        .stylesCompiled .sequence] ∧
    strictStartupOrder (startTrace ⟨.obj [("tech", .str "scss")], .deferred, false, true,
        [.complete 0, .complete 0]⟩) = false ∧
    precedes .serverBound .watcherAttached (startTrace ⟨.obj [("tech", .str "scss")],
        .deferred, false, true, [.complete 0, .complete 0]⟩) = false ∧
    strictStartupOrder (startTrace ⟨.obj [("tech", .str "scss")], .immediate, false, true,
        [.complete 0]⟩) = false := by
  decide

/-- C5, amended: in every start-up run of the task `start` (whatever
`config.tech` is, whether compilations succeed, whenever pending operations
complete and source files change) `bs.init` is called first; when `bs.init` fires
its callback in a later turn, the watcher is attached next, in the same body of
`proxy-start`, before the server reports bound; no compilation of `styles`
completes before the watcher is attached; the run of `styles` started by the
sequence begins only after the server reports bound, and a run started by the
watcher only after the watcher is attached; with a `config.tech` that selects no
transform no compilation completes. -/
theorem start_trace_order (r : Run) :
    (startTrace r).head? = some Event.serverInitCalled ∧
    (r.timing = Timing.deferred →
      ∃ more, startTrace r = Event.serverInitCalled :: Event.watcherAttached :: more) ∧
    (r.timing = Timing.deferred → Event.serverBound ∈ startTrace r →
      precedes .watcherAttached .serverBound (startTrace r) = true) ∧
    (∀ o, Event.stylesCompiled o ∈ startTrace r →
      precedes .watcherAttached (.stylesCompiled o) (startTrace r) = true) ∧
    (Event.stylesStarted .sequence ∈ startTrace r →
      precedes .serverBound (.stylesStarted .sequence) (startTrace r) = true) ∧
    (Event.stylesStarted .watcher ∈ startTrace r →
      precedes .watcherAttached (.stylesStarted .watcher) (startTrace r) = true) ∧
    ((stylesPreProcessor r.config).returned = none →
      ∀ o, Event.stylesCompiled o ∉ startTrace r) := by
  obtain ⟨f1, f2, f3, f4, f5, f6, f7⟩ := first_facts r
  obtain ⟨more, hmore⟩ := foldl_trace r.config r.escapes r.inputs r.first
  have htr : startTrace r = r.first.trace ++ more := hmore
  have hafter : ∀ b, b ∉ r.first.trace → b ∈ startTrace r →
      precedes .watcherAttached b (startTrace r) = true := by
    intro b hb hin
    rcases f4 with hw | hc
    · rw [htr] at hin ⊢
      exact precedes_append _ _ _ _ hw hb hin
    · have : startTrace r = r.first.trace := by
        unfold startTrace Run.last
        rw [foldl_crashed _ _ _ _ hc]
      rw [this] at hin
      exact absurd hin hb
  refine ⟨?_, ?_, ?_, ?_, ?_, ?_, ?_⟩
  · rw [htr]
    cases hft : r.first.trace with
    | nil => rw [hft] at f1; simp at f1
    | cons a as => rw [hft] at f1; simpa using f1
  · intro ht
    obtain ⟨config, t, escapes, fc, inputs⟩ := r
    subst ht
    rw [first_deferred] at htr
    exact ⟨more, htr⟩
  · intro ht hb
    obtain ⟨config, t, escapes, fc, inputs⟩ := r
    subst ht
    rw [first_deferred] at htr
    rw [htr] at hb ⊢
    exact precedes_append _ _ _ _ (by simp) (by simp) hb
  · intro o ho
    exact hafter _ (f2 o) ho
  · exact foldl_invariant _ _ (ordered_append _ _) r.config r.escapes
      (allTurns_watcher_ordered r.config r.escapes) r.inputs r.first f5 f6
  · exact hafter _ f3
  · intro hnone
    exact foldl_invariant (fun tr => ∀ o, Event.stylesCompiled o ∉ tr)
      (fun evs => ∀ o, Event.stylesCompiled o ∉ evs)
      (fun tr evs h1 h2 o hmem => by
        rcases List.mem_append.1 hmem with h | h
        · exact h1 o h
        · exact h2 o h)
      r.config r.escapes (fun ok => allTurns_watcher_none r.config r.escapes ok hnone)
      r.inputs r.first f2 (f7 hnone)

theorem start_trace_order_witness :
    precedes .watcherAttached (.stylesCompiled .watcher)
      (startTrace ⟨.obj [("tech", .str "less")], .deferred, true, false,
        [.fileChange true, .complete 1, .complete 0, .complete 0]⟩) = true ∧
    precedes .serverBound (.stylesStarted .sequence)
      (startTrace ⟨.obj [("tech", .str "less")], .deferred, true, false,
        [.fileChange true, .complete 1, .complete 0, .complete 0]⟩) = true ∧
    (∀ o, Event.stylesCompiled o ∉
      startTrace ⟨.obj [("tech", .str "sass")], .deferred, true, true,
        [.complete 0, .fileChange true]⟩) :=
  ⟨(start_trace_order _).2.2.2.1 .watcher (by decide),
    (start_trace_order _).2.2.2.2.1 (by decide),
    (start_trace_order ⟨.obj [("tech", .str "sass")], .deferred, true, true,
      [.complete 0, .fileChange true]⟩).2.2.2.2.2.2 rfl⟩

end Kakadu
